import Mathlib

/-!
Shallow embedding of `src/mcscf/mc2step_uhf.py`, the two-step CASSCF
convergence driver `kernel` for unrestricted (alpha/beta spin) orbitals.

Modelling choices:
* Floating-point scalars (energies, tolerances, norms) are modelled by an
  arbitrary linear ordered commutative ring `α`: the driver only adds,
  subtracts, takes absolute values of and compares these scalars.
* Orbital coefficients and rotation matrices are concrete matrices over
  `α`, so the orbital update `mo = list(map(numpy.dot, mo, u))` is real
  matrix multiplication per spin channel.
* The external collaborators consumed by the driver (`ao2mo`, `casci`,
  `fcisolver.make_rdm12s`, `rotate_orb_cc`, `dump_chk`) are opaque function
  fields of a `Casscf` structure; `rotate_orb_cc` yields its single
  `(u, g_orb, njk)` item directly, since the driver calls `.next()` exactly
  once on the generator before `.close()`.
* `numpy.linalg.norm` is an abstract function bundle (`Norms`); only the
  driver's use of the returned scalars is modelled (the one algebraic fact
  the driver itself relies on, `A - 0 = A`, lives in the matrix algebra).
* Python's `macro`/`micro` arguments are named `maxMac`/`mic` here
  (`macro` is reserved in Lean), and the loop indices `imacro`/`imicro`
  are named `imc`/`i`.
* Unbound-local references are real in the source: with `macro = 0` the
  final logging reads `imacro` which was never assigned, and with
  `micro = 0` the update `totmicro += imicro+1` reads an unassigned
  `imicro`.  Both are modelled by `Option` state and a `KErr.unboundLocal`
  error, and an exception raised by `casscf.dump_chk` propagates as
  `KErr.dumpFailed`.
* The driver additionally returns a trace of collaborator-call events
  (`TEvt`) and the emitted log lines (`LogEvt`); each event is recorded at
  the position of the corresponding source line.  Log lines are gated by
  the verbosity level exactly where the source calls the logger; wall-clock
  timer values are not modelled (only the fact that a timer line is
  emitted).
-/

/-- Pair of per-spin orbital coefficient matrices (`mo[0]`, `mo[1]`),
each of shape (number of AO basis functions × number of MOs). -/
abbrev MoPair (α : Type) (nao nmo : ℕ) :=
  Matrix (Fin nao) (Fin nmo) α × Matrix (Fin nao) (Fin nmo) α

/-- Square rotation matrix on the molecular-orbital index. -/
abbrev RMat (α : Type) (nmo : ℕ) := Matrix (Fin nmo) (Fin nmo) α

/-- One-particle active-space density matrix for one spin channel. -/
abbrev DmMat (α : Type) (ncas : ℕ) := Matrix (Fin ncas) (Fin ncas) α

/-- `casdm1`: pair of per-spin one-particle active-space density matrices. -/
abbrev DmPair (α : Type) (ncas : ℕ) := DmMat α ncas × DmMat α ncas

/-- Modelled from the spec: the logging collaborator (`pyscf.lib.logger`,
not under `src/`) emits a message only when the logger's verbosity is at
least the message's level, with levels ordered
QUIET < ERROR < WARN < NOTE < INFO < DEBUG.  Only the gating matters for
the statements below. -/
def lvlNote : ℕ := 3

/-- INFO log level (see `lvlNote`). -/
def lvlInfo : ℕ := 4

/-- DEBUG log level (see `lvlNote`). -/
def lvlDebug : ℕ := 5

/-- Timer messages are emitted at the DEBUG level (see `lvlNote`). -/
def lvlTimer : ℕ := 5

/-- Log lines emitted by `kernel`, with their numeric payloads.
Timer lines carry only a position tag; wall-clock times are out of scope. -/
inductive LogEvt (α : Type)
  | startDebug
  | casciInfo (e_tot : α)
  | timerEvt (tag : ℕ)
  | microDebug (i : ℕ) (norm_t norm_gorb norm_ddm : α)
  | macInfo (imc ninner nmic : ℕ) (e_tot de : α)
  | macGradInfo (norm_gorb norm_ddm : α)
  | casEnergyDebug (e_ci : α)
  | convergedInfo (nmac ninner nmic : ℕ)
  | notConvergedInfo (nmac ninner nmic : ℕ)
  | finalNote (e_tot : α)
deriving DecidableEq

/-- Emit a log line when the verbosity `v` reaches the line's level. -/
def logIf {α : Type} (lvl v : ℕ) (e : LogEvt α) : List (LogEvt α) :=
  if lvl ≤ v then [e] else []

/-- Snapshot of one completed macro iteration, recorded at the point where
the driver runs the macro convergence test (source lines 84-88):
`elast` is the previous total energy, `e_tot` the freshly computed one,
`norm_gorb` the last micro iteration's orbital-gradient norm, `norm_ddm`
the density-matrix change norm, and `conv` the converged flag as set at the
end of this iteration. -/
structure MacRec (α : Type) where
  imc : ℕ
  elast : α
  e_tot : α
  norm_gorb : α
  norm_ddm : α
  conv : Bool
deriving DecidableEq

/-- Trace events: one per collaborator call (and per generator lifecycle
action), recorded in execution order. -/
inductive TEvt (α : Type)
  | ao2moCall
  | casciCall
  | rdmCall
  | genCreate (imc i : ℕ)
  | genNext (imc i : ℕ)
  | genClose (imc i : ℕ)
  | microRec (imc i : ℕ) (norm_t norm_gorb : α)
  | callbackCall (imc i : ℕ)
  | dumpChkCall (imc : ℕ)
  | macIter (r : MacRec α)
deriving DecidableEq

/-- The Python locals that the source reads before ever assigning them when
an iteration cap is zero. -/
inductive PyVar
  | imic
  | imac
deriving DecidableEq

/-- Abnormal terminations of `kernel`: an unbound-local reference
(`UnboundLocalError` in Python) or an exception escaping `casscf.dump_chk`. -/
inductive KErr
  | unboundLocal (v : PyVar)
  | dumpFailed (code : ℕ)
deriving DecidableEq

/-- The state snapshot handed to the checkpoint sink (the source passes
`locals()`; the fields here are the driver-owned parts of that scope). -/
structure Chk (W α : Type) (nao nmo : ℕ) where
  imc : ℕ
  e_tot : α
  conv : Bool
  mo : MoPair α nao nmo
  fcivec : W

/-- The CASSCF object as consumed by `kernel`: configuration attributes and
the collaborator services (`ao2mo`, `casci`, `fcisolver.make_rdm12s`,
`rotate_orb_cc`, `dump_chk`).  `W` is the opaque CI-vector type, `E` the
transformed-integral handle type, `D2` the two-particle density type and
`G` the orbital-gradient type.  `dump_chk` may fail (raise), returning
`Except`. -/
structure Casscf (W E D2 G α : Type) (nao nmo ncas : ℕ) where
  ncore : ℕ
  nelecas : ℕ × ℕ
  verbose : ℕ
  conv_tol_grad : α
  ao2mo : MoPair α nao nmo → E
  casci : MoPair α nao nmo → Option W → E → α × α × W
  make_rdm12s : W → ℕ → ℕ × ℕ → DmPair α ncas × D2
  rotate_orb_cc : MoPair α nao nmo → DmPair α ncas → D2 → E →
    (RMat α nmo × RMat α nmo) × G × ℕ
  dump_chk : Chk W α nao nmo → Except ℕ Unit

/-- Abstract model of `numpy.linalg.norm` at the three shapes the driver
uses it: the stacked rotation deviation `u - numpy.eye(nmo)` (given here as
the two per-spin deviations), the orbital gradient, and a single
active-space density matrix. -/
structure Norms (G α : Type) (nmo ncas : ℕ) where
  normU : RMat α nmo → RMat α nmo → α
  normG : G → α
  normD : DmMat α ncas → α

/-- The tuple returned by `kernel` on normal termination
(`conv, e_tot, e_ci, fcivec, mo`). -/
structure KRes (W α : Type) (nao nmo : ℕ) where
  conv : Bool
  e_tot : α
  e_ci : α
  fcivec : W
  mo : MoPair α nao nmo

/-- The micro-loop state: current orbitals, current integrals, the
inner-iteration counter `ninner`, and the last-assigned values of the
Python locals `imicro` and `norm_gorb` (`none` while still unassigned). -/
structure MicroSt (E α : Type) (nao nmo : ℕ) where
  mo : MoPair α nao nmo
  eris : E
  ninner : ℕ
  microBound : Option (ℕ × α)

/-- Output of one micro-loop body: the updated state plus the two norms the
body computed (source lines 52-53), which the exit test then reads. -/
structure StepOut (E α : Type) (nao nmo : ℕ) where
  ms : MicroSt E α nao nmo
  norm_t : α
  norm_gorb : α

/-- The macro-loop state threaded across macro iterations. `imacLast` is the
last-assigned value of the Python local `imacro` (`none` before the loop
first runs). -/
structure MacSt (W E α : Type) (nao nmo ncas : ℕ) where
  mo : MoPair α nao nmo
  eris : E
  fcivec : W
  e_tot : α
  e_ci : α
  elast : α
  conv : Bool
  casdm1 : DmPair α ncas
  totmicro : ℕ
  totinner : ℕ
  microBound : Option (ℕ × α)
  imacLast : Option ℕ

/-- `mo = list(map(numpy.dot, mo, u))` (source line 56): per-spin-channel
orbital update, alpha and beta each multiplied by their own rotation. -/
def updateMo {α : Type} [CommRing α] {nao nmo : ℕ} (mo : MoPair α nao nmo)
    (u : RMat α nmo × RMat α nmo) : MoPair α nao nmo :=
  (mo.1 * u.1, mo.2 * u.2)

variable {W E D2 G α : Type} [LinearOrderedCommRing α] {nao nmo ncas : ℕ}

/-- One micro-loop body (source lines 48-60): create the rotation
generator, take its single `(u, g_orb, njk)` step, close it, accumulate
`ninner`, compute the rotation-deviation and gradient norms, apply the
rotation and recompute the integral transform. -/
def microStep (cs : Casscf W E D2 G α nao nmo ncas) (ns : Norms G α nmo ncas)
    (cd1 : DmPair α ncas) (cd2 : D2) (i : ℕ) (ms : MicroSt E α nao nmo) :
    StepOut E α nao nmo :=
  let rstep := cs.rotate_orb_cc ms.mo cd1 cd2 ms.eris
  let u := rstep.1
  let g_orb := rstep.2.1
  let njk := rstep.2.2
  let norm_t := ns.normU (u.1 - 1) (u.2 - 1)
  let norm_gorb := ns.normG g_orb
  let mo' := updateMo ms.mo u
  let eris' := cs.ao2mo mo'
  { ms := { mo := mo', eris := eris', ninner := ms.ninner + njk,
            microBound := some (i, norm_gorb) },
    norm_t := norm_t, norm_gorb := norm_gorb }

/-- The micro loop `for imicro in range(micro)` (source lines 46-70): run
the body, emit the per-iteration trace events and log lines, and stop early
when `norm_t < toloose or norm_gorb < toloose`; otherwise continue until
the fuel (the remaining range) is exhausted.  `tolg` is the driver's
`toloose`, `nddm` the current macro iteration's `norm_ddm` (logged in the
micro debug line), `imc` the macro index, `v` the verbosity and `cb`
whether a progress callback was supplied. -/
def microLoop (cs : Casscf W E D2 G α nao nmo ncas) (ns : Norms G α nmo ncas)
    (cd1 : DmPair α ncas) (cd2 : D2) (tolg nddm : α) (imc v : ℕ) (cb : Bool) :
    ℕ → ℕ → MicroSt E α nao nmo →
    MicroSt E α nao nmo × List (TEvt α) × List (LogEvt α)
  | 0, _, ms => (ms, [], [])
  | fuel + 1, i, ms =>
    let so := microStep cs ns cd1 cd2 i ms
    let evs := [TEvt.genCreate imc i, TEvt.genNext imc i, TEvt.genClose imc i,
                TEvt.ao2moCall, TEvt.microRec imc i so.norm_t so.norm_gorb]
               ++ (if cb then [TEvt.callbackCall imc i] else [])
    let lgs := logIf lvlTimer v (LogEvt.timerEvt 1)
               ++ logIf lvlTimer v (LogEvt.timerEvt 2)
               ++ logIf lvlDebug v (LogEvt.microDebug i so.norm_t so.norm_gorb nddm)
               ++ logIf lvlTimer v (LogEvt.timerEvt 3)
    if so.norm_t < tolg ∨ so.norm_gorb < tolg then (so.ms, evs, lgs)
    else
      let r := microLoop cs ns cd1 cd2 tolg nddm imc v cb fuel (i + 1) so.ms
      (r.1, evs ++ r.2.1, lgs ++ r.2.2)

/-- One macro-loop body (source lines 39-94): refresh the density matrices,
compute the density-change norm, run the micro loop, update the totals
(raising `UnboundLocalError` on `imicro` when the micro loop never ran),
re-solve CASCI, run the macro convergence test, and call the checkpoint
sink (whose exception, if any, propagates). -/
def macBody (cs : Casscf W E D2 G α nao nmo ncas) (ns : Norms G α nmo ncas)
    (tol tolg : α) (mic v : ℕ) (cb dump : Bool) (imc : ℕ)
    (s : MacSt W E α nao nmo ncas) :
    Except KErr (MacSt W E α nao nmo ncas) × List (TEvt α) × List (LogEvt α) :=
  let casdm1_old := s.casdm1
  let rdm := cs.make_rdm12s s.fcivec ncas cs.nelecas
  let casdm1 := rdm.1
  let casdm2 := rdm.2
  let norm_ddm := ns.normD (casdm1.1 - casdm1_old.1)
                  + ns.normD (casdm1.2 - casdm1_old.2)
  let ms0 : MicroSt E α nao nmo :=
    { mo := s.mo, eris := s.eris, ninner := 0, microBound := s.microBound }
  let mres := microLoop cs ns casdm1 casdm2 tolg norm_ddm imc v cb mic 0 ms0
  let ms := mres.1
  let evs1 := TEvt.rdmCall :: mres.2.1
  let lgs1 := logIf lvlTimer v (LogEvt.timerEvt 0) ++ mres.2.2
  match ms.microBound with
  | none => (Except.error (KErr.unboundLocal PyVar.imic), evs1, lgs1)
  | some ib =>
    let imicro := ib.1
    let norm_gorb := ib.2
    let totinner := s.totinner + ms.ninner
    let totmicro := s.totmicro + imicro + 1
    let cres := cs.casci ms.mo (some s.fcivec) ms.eris
    let e_tot := cres.1
    let e_ci := cres.2.1
    let fvec := cres.2.2
    let cond := |s.elast - e_tot| < tol ∧ norm_gorb < tolg ∧ norm_ddm < tolg
    let conv : Bool := if cond then true else s.conv
    let elast' := if cond then s.elast else e_tot
    let mrec : MacRec α :=
      { imc := imc, elast := s.elast, e_tot := e_tot, norm_gorb := norm_gorb,
        norm_ddm := norm_ddm, conv := conv }
    let s' : MacSt W E α nao nmo ncas :=
      { mo := ms.mo, eris := ms.eris, fcivec := fvec, e_tot := e_tot,
        e_ci := e_ci, elast := elast', conv := conv, casdm1 := casdm1,
        totmicro := totmicro, totinner := totinner,
        microBound := ms.microBound, imacLast := some imc }
    let evs2 := evs1 ++ [TEvt.casciCall, TEvt.macIter mrec]
    let lgs2 := lgs1
      ++ logIf lvlInfo v (LogEvt.macInfo imc ms.ninner (imicro + 1) e_tot (e_tot - s.elast))
      ++ logIf lvlInfo v (LogEvt.macGradInfo norm_gorb norm_ddm)
      ++ logIf lvlDebug v (LogEvt.casEnergyDebug e_ci)
      ++ logIf lvlTimer v (LogEvt.timerEvt 4)
      ++ logIf lvlTimer v (LogEvt.timerEvt 5)
    if dump then
      match cs.dump_chk { imc := imc, e_tot := e_tot, conv := conv,
                          mo := ms.mo, fcivec := fvec } with
      | Except.error k =>
          (Except.error (KErr.dumpFailed k), evs2 ++ [TEvt.dumpChkCall imc], lgs2)
      | Except.ok _ => (Except.ok s', evs2 ++ [TEvt.dumpChkCall imc], lgs2)
    else (Except.ok s', evs2, lgs2)

/-- The macro loop `for imacro in range(macro)` (source lines 39-94): run
the body; on `conv` break out, otherwise continue with the next index until
the range is exhausted. -/
def macLoop (cs : Casscf W E D2 G α nao nmo ncas) (ns : Norms G α nmo ncas)
    (tol tolg : α) (mic v : ℕ) (cb dump : Bool) :
    ℕ → ℕ → MacSt W E α nao nmo ncas →
    Except KErr (MacSt W E α nao nmo ncas) × List (TEvt α) × List (LogEvt α)
  | 0, _, s => (Except.ok s, [], [])
  | fuel + 1, imc, s =>
    let b := macBody cs ns tol tolg mic v cb dump imc s
    match b.1 with
    | Except.error e => (Except.error e, b.2.1, b.2.2)
    | Except.ok s' =>
      if s'.conv then (Except.ok s', b.2.1, b.2.2)
      else
        let r := macLoop cs ns tol tolg mic v cb dump fuel (imc + 1) s'
        (r.1, b.2.1 ++ r.2.1, b.2.2 ++ r.2.2)

/-- The driver `kernel(casscf, mo_coeff, tol, macro, micro, ci0, callback,
verbose, dump_chk, ...)` (source lines 14-104).  Returns the result tuple
(or the propagated error) together with the collaborator-call trace and the
emitted log lines.  `maxMac`/`mic` are the Python `macro`/`micro`
iteration caps, `cb` whether a callback was supplied, `vo` the optional
`verbose` argument (defaulting to `casscf.verbose`) and `dump` the
`dump_chk` flag. -/
def kernel (cs : Casscf W E D2 G α nao nmo ncas) (ns : Norms G α nmo ncas)
    (mo_coeff : MoPair α nao nmo) (tol : α) (maxMac mic : ℕ) (ci0 : Option W)
    (cb : Bool) (vo : Option ℕ) (dump : Bool) :
    Except KErr (KRes W α nao nmo) × List (TEvt α) × List (LogEvt α) :=
  let v := vo.getD cs.verbose
  let lg0 := logIf lvlDebug v LogEvt.startDebug
  let eris := cs.ao2mo mo_coeff
  let cres := cs.casci mo_coeff ci0 eris
  let e_tot := cres.1
  let e_ci := cres.2.1
  let fvec := cres.2.2
  let lg1 := lg0 ++ logIf lvlInfo v (LogEvt.casciInfo e_tot)
  let ev1 : List (TEvt α) := [TEvt.ao2moCall, TEvt.casciCall]
  if ncas = nmo then
    (Except.ok { conv := true, e_tot := e_tot, e_ci := e_ci, fcivec := fvec,
                 mo := mo_coeff }, ev1, lg1)
  else
    let s0 : MacSt W E α nao nmo ncas :=
      { mo := mo_coeff, eris := eris, fcivec := fvec, e_tot := e_tot,
        e_ci := e_ci, elast := e_tot, conv := false, casdm1 := (0, 0),
        totmicro := 0, totinner := 0, microBound := none, imacLast := none }
    let lg2 := lg1 ++ logIf lvlTimer v (LogEvt.timerEvt 6)
    let r := macLoop cs ns tol cs.conv_tol_grad mic v cb dump maxMac 0 s0
    match r.1 with
    | Except.error e => (Except.error e, ev1 ++ r.2.1, lg2 ++ r.2.2)
    | Except.ok s =>
      match s.imacLast with
      | none =>
          (Except.error (KErr.unboundLocal PyVar.imac), ev1 ++ r.2.1, lg2 ++ r.2.2)
      | some im =>
        let lg3 := lg2 ++ r.2.2
          ++ (if s.conv then logIf lvlInfo v (LogEvt.convergedInfo (im + 1) s.totinner s.totmicro)
              else logIf lvlInfo v (LogEvt.notConvergedInfo (im + 1) s.totinner s.totmicro))
          ++ logIf lvlNote v (LogEvt.finalNote s.e_tot)
          ++ logIf lvlTimer v (LogEvt.timerEvt 7)
        (Except.ok { conv := s.conv, e_tot := s.e_tot, e_ci := s.e_ci,
                     fcivec := s.fcivec, mo := s.mo }, ev1 ++ r.2.1, lg3)

/-- Extract the per-macro-iteration convergence records from a trace. -/
def macRecs {α : Type} (l : List (TEvt α)) : List (MacRec α) :=
  l.filterMap fun e => match e with
    | TEvt.macIter r => some r
    | _ => none

/-- Extract the per-micro-iteration records `(imicro, norm_t, norm_gorb)`
from a trace. -/
def microRecs {α : Type} (l : List (TEvt α)) : List (ℕ × α × α) :=
  l.filterMap fun e => match e with
    | TEvt.microRec _ i t g => some (i, t, g)
    | _ => none

/-- Keep only the rotation-generator lifecycle events of a trace. -/
def genEvts {α : Type} (l : List (TEvt α)) : List (TEvt α) :=
  l.filter fun e => match e with
    | TEvt.genCreate _ _ => true
    | TEvt.genNext _ _ => true
    | TEvt.genClose _ _ => true
    | _ => false

/-- A generator-event list is well-formed when it is a concatenation of
blocks `create p, next p, close p` over single instances `p`: every
instance is created fresh, asked for exactly one step, then closed, and is
never asked for a second step. -/
def wfGen {α : Type} : List (TEvt α) → Bool
  | [] => true
  | TEvt.genCreate a b :: TEvt.genNext a2 b2 :: TEvt.genClose a3 b3 :: rest =>
      decide (a2 = a) && decide (a3 = a) && decide (b2 = b) && decide (b3 = b)
      && wfGen rest
  | _ => false

/-- Number of generator instances created during macro iteration `m`. -/
def genCreatesAt {α : Type} (l : List (TEvt α)) (m : ℕ) : ℕ :=
  (l.filter fun e => match e with
    | TEvt.genCreate a _ => decide (a = m)
    | _ => false).length

/-- Number of generator instances created anywhere in the trace. -/
def genCreates {α : Type} (l : List (TEvt α)) : ℕ :=
  (l.filter fun e => match e with
    | TEvt.genCreate _ _ => true
    | _ => false).length

/-- Whether an `Except` value is a normal result. -/
def isOkE {ε β : Type _} : Except ε β → Bool
  | Except.ok _ => true
  | Except.error _ => false

/-- Drop the log component of a `(result, trace, log)` triple: everything a
caller observes apart from the emitted log lines. -/
def noLog {α β : Type _} (x : β × List (TEvt α) × List (LogEvt α)) :
    β × List (TEvt α) :=
  (x.1, x.2.1)

/-- Concrete orbital pair used to exercise the driver below. -/
def moC : MoPair ℤ 1 1 := (1, 1)

/-- A concrete `Casscf` instance with trivial collaborators, one molecular
orbital and an empty active space (`ncas = 0 < nmo = 1`). -/
def csA : Casscf Unit Unit Unit Unit ℤ 1 1 0 where
  ncore := 0
  nelecas := (1, 1)
  verbose := 0
  conv_tol_grad := 1
  ao2mo := fun _ => ()
  casci := fun _ _ _ => (0, 0, ())
  make_rdm12s := fun _ _ _ => ((0, 0), ())
  rotate_orb_cc := fun _ _ _ _ => ((1, 1), (), 1)
  dump_chk := fun _ => Except.ok ()

/-- Norm oracle for the concrete runs: every norm evaluates to `1`. -/
def nsA : Norms Unit ℤ 1 0 where
  normU := fun _ _ => 1
  normG := fun _ => 1
  normD := fun _ => 1

/-- `csA` with a checkpoint sink that always raises (error code 7). -/
def csB : Casscf Unit Unit Unit Unit ℤ 1 1 0 :=
  { csA with dump_chk := fun _ => Except.error 7 }

/-- A concrete instance whose active space spans all orbitals
(`ncas = nmo = 1`). -/
def csE : Casscf Unit Unit Unit Unit ℤ 1 1 1 where
  ncore := 0
  nelecas := (1, 0)
  verbose := 0
  conv_tol_grad := 1
  ao2mo := fun _ => ()
  casci := fun _ _ _ => (3, 2, ())
  make_rdm12s := fun _ _ _ => ((0, 0), ())
  rotate_orb_cc := fun _ _ _ _ => ((1, 1), (), 1)
  dump_chk := fun _ => Except.ok ()

/-- Norm oracle matching `csE`. -/
def nsE : Norms Unit ℤ 1 1 where
  normU := fun _ _ => 1
  normG := fun _ => 1
  normD := fun _ => 1

/-! ## Trace-extraction helper lemmas -/

lemma macRecs_append {α : Type} (l1 l2 : List (TEvt α)) :
    macRecs (l1 ++ l2) = macRecs l1 ++ macRecs l2 :=
  List.filterMap_append l1 l2 _

lemma macRecs_nil {α : Type} : macRecs ([] : List (TEvt α)) = [] := rfl

lemma macRecs_rdm {α : Type} (l : List (TEvt α)) :
    macRecs (TEvt.rdmCall :: l) = macRecs l := rfl

lemma macRecs_casci {α : Type} (l : List (TEvt α)) :
    macRecs (TEvt.casciCall :: l) = macRecs l := rfl

lemma macRecs_ao2mo {α : Type} (l : List (TEvt α)) :
    macRecs (TEvt.ao2moCall :: l) = macRecs l := rfl

lemma macRecs_dump {α : Type} (m : ℕ) (l : List (TEvt α)) :
    macRecs (TEvt.dumpChkCall m :: l) = macRecs l := rfl

lemma macRecs_macIter {α : Type} (r : MacRec α) (l : List (TEvt α)) :
    macRecs (TEvt.macIter r :: l) = r :: macRecs l := rfl

lemma genEvts_append {α : Type} (l1 l2 : List (TEvt α)) :
    genEvts (l1 ++ l2) = genEvts l1 ++ genEvts l2 :=
  List.filter_append l1 l2

lemma genEvts_rdm {α : Type} (l : List (TEvt α)) :
    genEvts (TEvt.rdmCall :: l) = genEvts l := rfl

lemma genEvts_tail1 {α : Type} (r : MacRec α) :
    genEvts [TEvt.casciCall, TEvt.macIter r] = ([] : List (TEvt α)) := rfl

lemma genEvts_tail2 {α : Type} (m : ℕ) :
    genEvts [TEvt.dumpChkCall m] = ([] : List (TEvt α)) := rfl

lemma genCreates_append {α : Type} (l1 l2 : List (TEvt α)) :
    genCreates (l1 ++ l2) = genCreates l1 + genCreates l2 := by
  simp [genCreates, List.filter_append]

lemma microRecs_step {α : Type} (imc i : ℕ) (t g : α) (cb : Bool)
    (l : List (TEvt α)) :
    microRecs (([TEvt.genCreate imc i, TEvt.genNext imc i, TEvt.genClose imc i,
      TEvt.ao2moCall, TEvt.microRec imc i t g]
      ++ (if cb then [TEvt.callbackCall imc i] else [])) ++ l)
      = (i, t, g) :: microRecs l := by
  cases cb <;> rfl

lemma microRecs_step_last {α : Type} (imc i : ℕ) (t g : α) (cb : Bool) :
    microRecs (([TEvt.genCreate imc i, TEvt.genNext imc i, TEvt.genClose imc i,
      TEvt.ao2moCall, TEvt.microRec imc i t g]
      ++ (if cb then [TEvt.callbackCall imc i] else [])) : List (TEvt α))
      = [(i, t, g)] := by
  cases cb <;> rfl

/-! ## Invariants of the micro loop -/

lemma microLoop_macRecs_nil (cs : Casscf W E D2 G α nao nmo ncas)
    (ns : Norms G α nmo ncas) (cd1 : DmPair α ncas) (cd2 : D2) (tolg nddm : α)
    (imc v : ℕ) (cb : Bool) (fuel i : ℕ) (ms : MicroSt E α nao nmo) :
    macRecs (microLoop cs ns cd1 cd2 tolg nddm imc v cb fuel i ms).2.1 = [] := by
  induction fuel generalizing i ms with
  | zero => rfl
  | succ f ih =>
    simp only [microLoop]
    split
    · cases cb <;> rfl
    · rw [macRecs_append, ih, List.append_nil]
      cases cb <;> rfl

lemma microLoop_some (cs : Casscf W E D2 G α nao nmo ncas)
    (ns : Norms G α nmo ncas) (cd1 : DmPair α ncas) (cd2 : D2) (tolg nddm : α)
    (imc v : ℕ) (cb : Bool) (fuel i : ℕ) (ms : MicroSt E α nao nmo)
    (h : ms.microBound.isSome ∨ 1 ≤ fuel) :
    ((microLoop cs ns cd1 cd2 tolg nddm imc v cb fuel i ms).1.microBound).isSome := by
  induction fuel generalizing i ms with
  | zero =>
    rcases h with h | h
    · exact h
    · omega
  | succ f ih =>
    simp only [microLoop]
    split
    · rfl
    · exact ih (i + 1) _ (Or.inl rfl)

lemma microLoop_eris (cs : Casscf W E D2 G α nao nmo ncas)
    (ns : Norms G α nmo ncas) (cd1 : DmPair α ncas) (cd2 : D2) (tolg nddm : α)
    (imc v : ℕ) (cb : Bool) (fuel i : ℕ) (ms : MicroSt E α nao nmo)
    (h : ms.eris = cs.ao2mo ms.mo) :
    (microLoop cs ns cd1 cd2 tolg nddm imc v cb fuel i ms).1.eris
      = cs.ao2mo (microLoop cs ns cd1 cd2 tolg nddm imc v cb fuel i ms).1.mo := by
  induction fuel generalizing i ms with
  | zero => exact h
  | succ f ih =>
    simp only [microLoop]
    split
    · rfl
    · exact ih (i + 1) (microStep cs ns cd1 cd2 i ms).ms rfl

/-! ## The shape of one macro-loop body -/

lemma macBody_shape (cs : Casscf W E D2 G α nao nmo ncas)
    (ns : Norms G α nmo ncas) (tol tolg : α) (mic v : ℕ) (cb dump : Bool)
    (imc : ℕ) (s : MacSt W E α nao nmo ncas) :
    (macRecs (macBody cs ns tol tolg mic v cb dump imc s).2.1 = []
      ∧ ∃ e, (macBody cs ns tol tolg mic v cb dump imc s).1 = Except.error e)
    ∨ ∃ r : MacRec α,
        macRecs (macBody cs ns tol tolg mic v cb dump imc s).2.1 = [r]
        ∧ r.imc = imc ∧ r.elast = s.elast
        ∧ r.norm_ddm = ns.normD ((cs.make_rdm12s s.fcivec ncas cs.nelecas).1.1 - s.casdm1.1)
            + ns.normD ((cs.make_rdm12s s.fcivec ncas cs.nelecas).1.2 - s.casdm1.2)
        ∧ r.conv = (if |s.elast - r.e_tot| < tol ∧ r.norm_gorb < tolg ∧ r.norm_ddm < tolg
                    then true else s.conv)
        ∧ ((∃ st', (macBody cs ns tol tolg mic v cb dump imc s).1 = Except.ok st'
              ∧ st'.conv = r.conv)
           ∨ ∃ k, (macBody cs ns tol tolg mic v cb dump imc s).1
              = Except.error (KErr.dumpFailed k)) := by
  simp only [macBody]
  split
  · left
    exact ⟨microLoop_macRecs_nil cs ns _ _ tolg _ imc v cb mic 0 _, _, rfl⟩
  · right
    split
    · split
      · simp only [macRecs_append, macRecs_rdm, macRecs_casci, macRecs_dump,
          macRecs_macIter, macRecs_nil, microLoop_macRecs_nil, List.nil_append]
        exact ⟨_, rfl, rfl, rfl, rfl, rfl, Or.inr ⟨_, rfl⟩⟩
      · simp only [macRecs_append, macRecs_rdm, macRecs_casci, macRecs_dump,
          macRecs_macIter, macRecs_nil, microLoop_macRecs_nil, List.nil_append]
        exact ⟨_, rfl, rfl, rfl, rfl, rfl, Or.inl ⟨_, rfl, rfl⟩⟩
    · simp only [macRecs_append, macRecs_rdm, macRecs_casci, macRecs_dump,
        macRecs_macIter, macRecs_nil, microLoop_macRecs_nil, List.nil_append]
      exact ⟨_, rfl, rfl, rfl, rfl, rfl, Or.inl ⟨_, rfl, rfl⟩⟩

lemma macBody_dump_err (cs : Casscf W E D2 G α nao nmo ncas)
    (ns : Norms G α nmo ncas) (tol tolg : α) (mic v : ℕ) (cb : Bool)
    (imc : ℕ) (s : MacSt W E α nao nmo ncas) (k : ℕ) (hmic : 1 ≤ mic)
    (hd : ∀ st, cs.dump_chk st = Except.error k) :
    (macBody cs ns tol tolg mic v cb true imc s).1
      = Except.error (KErr.dumpFailed k) := by
  simp only [macBody]
  split
  · rename_i heq
    exfalso
    have hs := microLoop_some cs ns (cs.make_rdm12s s.fcivec ncas cs.nelecas).1
      (cs.make_rdm12s s.fcivec ncas cs.nelecas).2 tolg
      (ns.normD ((cs.make_rdm12s s.fcivec ncas cs.nelecas).1.1 - s.casdm1.1)
        + ns.normD ((cs.make_rdm12s s.fcivec ncas cs.nelecas).1.2 - s.casdm1.2))
      imc v cb mic 0
      { mo := s.mo, eris := s.eris, ninner := 0, microBound := s.microBound }
      (Or.inr hmic)
    rw [heq] at hs
    simp at hs
  · rw [hd]
    simp

/-! ## Invariants of the macro loop -/

lemma macLoop_recs (cs : Casscf W E D2 G α nao nmo ncas)
    (ns : Norms G α nmo ncas) (tol tolg : α) (mic v : ℕ) (cb dump : Bool)
    (fuel imc : ℕ) (s : MacSt W E α nao nmo ncas) (hconv : s.conv = false) :
    ∀ r ∈ macRecs (macLoop cs ns tol tolg mic v cb dump fuel imc s).2.1,
      (r.conv = true ↔
        (|r.elast - r.e_tot| < tol ∧ r.norm_gorb < tolg ∧ r.norm_ddm < tolg))
      ∧ (r.conv = true →
          (macRecs (macLoop cs ns tol tolg mic v cb dump fuel imc s).2.1).getLast?
            = some r) := by
  induction fuel generalizing imc s with
  | zero => simp [macLoop, macRecs_nil]
  | succ f ih =>
    rcases macBody_shape cs ns tol tolg mic v cb dump imc s with
      ⟨hnil, e, he⟩ | ⟨r0, hr0, himc, helast, hddm, hcv, hres⟩
    · simp only [macLoop]
      simp [he, hnil]
    · rw [hconv] at hcv
      rw [← helast] at hcv
      have hiff0 : (r0.conv = true ↔
          (|r0.elast - r0.e_tot| < tol ∧ r0.norm_gorb < tolg ∧ r0.norm_ddm < tolg)) := by
        by_cases hc : (|r0.elast - r0.e_tot| < tol ∧ r0.norm_gorb < tolg ∧ r0.norm_ddm < tolg)
        · simp [hc] at hcv
          simp [hcv, hc]
        · simp [hc] at hcv
          simp [hcv, hc]
      rcases hres with ⟨st', hok, hstc⟩ | ⟨k, hek⟩
      · cases hsc : st'.conv with
        | true =>
          simp only [macLoop]
          simp only [hok]
          rw [if_pos hsc, hr0]
          intro r hr
          rcases List.mem_singleton.mp hr with rfl
          exact ⟨hiff0, fun _ => rfl⟩
        | false =>
          simp only [macLoop]
          simp only [hok]
          rw [if_neg (by simp [hsc])]
          rw [macRecs_append, hr0]
          intro r hr
          rcases List.mem_cons.mp hr with rfl | hr'
          · refine ⟨hiff0, fun hc => ?_⟩
            rw [hstc] at hsc
            rw [hc] at hsc
            exact absurd hsc (by simp)
          · obtain ⟨hiff', hlast'⟩ := ih (imc + 1) st' hsc r hr'
            refine ⟨hiff', fun hc => ?_⟩
            have := hlast' hc
            rw [List.getLast?_append, this]
            rfl
      · simp only [macLoop]
        simp only [hek]
        rw [hr0]
        intro r hr
        rcases List.mem_singleton.mp hr with rfl
        exact ⟨hiff0, fun _ => rfl⟩

lemma macLoop_head (cs : Casscf W E D2 G α nao nmo ncas)
    (ns : Norms G α nmo ncas) (tol tolg : α) (mic v : ℕ) (cb dump : Bool)
    (f imc : ℕ) (s : MacSt W E α nao nmo ncas) :
    ∀ rec : MacRec α,
      (macRecs (macLoop cs ns tol tolg mic v cb dump (f + 1) imc s).2.1).head?
        = some rec →
      rec.imc = imc ∧ rec.elast = s.elast
      ∧ rec.norm_ddm = ns.normD ((cs.make_rdm12s s.fcivec ncas cs.nelecas).1.1 - s.casdm1.1)
          + ns.normD ((cs.make_rdm12s s.fcivec ncas cs.nelecas).1.2 - s.casdm1.2)
      ∧ rec.conv = (if |s.elast - rec.e_tot| < tol ∧ rec.norm_gorb < tolg ∧ rec.norm_ddm < tolg
                    then true else s.conv) := by
  intro rec h
  simp only [macLoop] at h
  rcases macBody_shape cs ns tol tolg mic v cb dump imc s with
    ⟨hnil, e, he⟩ | ⟨r0, hr0, himc, helast, hddm, hcv, hres⟩
  · rw [he] at h
    simp only [hnil] at h
    simp [macRecs_nil] at h
  · rcases hres with ⟨st', hok, hstc⟩ | ⟨k, hek⟩
    · rw [hok] at h
      simp only [] at h
      by_cases hsc : st'.conv = true
      · rw [if_pos hsc, hr0] at h
        have hre : r0 = rec := by simpa using h
        subst hre
        exact ⟨himc, helast, hddm, hcv⟩
      · rw [if_neg hsc] at h
        rw [macRecs_append, hr0] at h
        have hre : r0 = rec := by simpa using h
        subst hre
        exact ⟨himc, helast, hddm, hcv⟩
    · rw [hek] at h
      simp only [] at h
      rw [hr0] at h
      have hre : r0 = rec := by simpa using h
      subst hre
      exact ⟨himc, helast, hddm, hcv⟩

/-! ## Generator lifecycle discipline -/

lemma microLoop_wfGen (cs : Casscf W E D2 G α nao nmo ncas)
    (ns : Norms G α nmo ncas) (cd1 : DmPair α ncas) (cd2 : D2) (tolg nddm : α)
    (imc v : ℕ) (cb : Bool) (fuel i : ℕ) (ms : MicroSt E α nao nmo)
    (ys : List (TEvt α)) (hys : wfGen ys = true) :
    wfGen (genEvts (microLoop cs ns cd1 cd2 tolg nddm imc v cb fuel i ms).2.1 ++ ys)
      = true := by
  induction fuel generalizing i ms ys with
  | zero => simpa [genEvts] using hys
  | succ f ih =>
    simp only [microLoop]
    split
    · cases cb <;> simpa [genEvts, wfGen] using hys
    · rw [genEvts_append, List.append_assoc]
      have h2 := ih (i + 1) (microStep cs ns cd1 cd2 i ms).ms ys hys
      cases cb <;> simpa [genEvts, wfGen] using h2

lemma macBody_wfGen (cs : Casscf W E D2 G α nao nmo ncas)
    (ns : Norms G α nmo ncas) (tol tolg : α) (mic v : ℕ) (cb dump : Bool)
    (imc : ℕ) (s : MacSt W E α nao nmo ncas) (ys : List (TEvt α))
    (hys : wfGen ys = true) :
    wfGen (genEvts (macBody cs ns tol tolg mic v cb dump imc s).2.1 ++ ys)
      = true := by
  simp only [macBody]
  split
  · rw [genEvts_rdm]
    exact microLoop_wfGen cs ns _ _ tolg _ imc v cb mic 0 _ ys hys
  · split
    · split
      · rw [genEvts_append, genEvts_append, genEvts_rdm, genEvts_tail1,
          genEvts_tail2, List.append_nil, List.append_nil]
        exact microLoop_wfGen cs ns _ _ tolg _ imc v cb mic 0 _ ys hys
      · rw [genEvts_append, genEvts_append, genEvts_rdm, genEvts_tail1,
          genEvts_tail2, List.append_nil, List.append_nil]
        exact microLoop_wfGen cs ns _ _ tolg _ imc v cb mic 0 _ ys hys
    · rw [genEvts_append, genEvts_rdm, genEvts_tail1, List.append_nil]
      exact microLoop_wfGen cs ns _ _ tolg _ imc v cb mic 0 _ ys hys

lemma macLoop_wfGen (cs : Casscf W E D2 G α nao nmo ncas)
    (ns : Norms G α nmo ncas) (tol tolg : α) (mic v : ℕ) (cb dump : Bool)
    (fuel imc : ℕ) (s : MacSt W E α nao nmo ncas) (ys : List (TEvt α))
    (hys : wfGen ys = true) :
    wfGen (genEvts (macLoop cs ns tol tolg mic v cb dump fuel imc s).2.1 ++ ys)
      = true := by
  induction fuel generalizing imc s ys with
  | zero => simpa [genEvts] using hys
  | succ f ih =>
    simp only [macLoop]
    split
    · exact macBody_wfGen cs ns tol tolg mic v cb dump imc s ys hys
    · split
      · exact macBody_wfGen cs ns tol tolg mic v cb dump imc s ys hys
      · rw [genEvts_append, List.append_assoc]
        exact macBody_wfGen cs ns tol tolg mic v cb dump imc s _
          (ih (imc + 1) _ ys hys)

lemma macLoop_wfGen_plain (cs : Casscf W E D2 G α nao nmo ncas)
    (ns : Norms G α nmo ncas) (tol tolg : α) (mic v : ℕ) (cb dump : Bool)
    (fuel imc : ℕ) (s : MacSt W E α nao nmo ncas) :
    wfGen (genEvts (macLoop cs ns tol tolg mic v cb dump fuel imc s).2.1)
      = true := by
  have h := macLoop_wfGen cs ns tol tolg mic v cb dump fuel imc s [] rfl
  simpa using h

/-! ## Log lines do not feed back into the computation -/

lemma microLoop_noLog (cs : Casscf W E D2 G α nao nmo ncas)
    (ns : Norms G α nmo ncas) (cd1 : DmPair α ncas) (cd2 : D2) (tolg nddm : α)
    (imc : ℕ) (cb : Bool) (v1 v2 : ℕ) (fuel i : ℕ) (ms : MicroSt E α nao nmo) :
    noLog (microLoop cs ns cd1 cd2 tolg nddm imc v1 cb fuel i ms)
      = noLog (microLoop cs ns cd1 cd2 tolg nddm imc v2 cb fuel i ms) := by
  induction fuel generalizing i ms with
  | zero => rfl
  | succ f ih =>
    by_cases hc : (microStep cs ns cd1 cd2 i ms).norm_t < tolg
        ∨ (microStep cs ns cd1 cd2 i ms).norm_gorb < tolg
    · simp only [microLoop, if_pos hc]
      rfl
    · simp only [microLoop, if_neg hc]
      have h := ih (i + 1) (microStep cs ns cd1 cd2 i ms).ms
      simp only [noLog, Prod.mk.injEq] at h ⊢
      exact ⟨h.1, by rw [h.2]⟩

lemma macBody_noLog (cs : Casscf W E D2 G α nao nmo ncas)
    (ns : Norms G α nmo ncas) (tol tolg : α) (mic : ℕ) (cb dump : Bool)
    (v1 v2 : ℕ) (imc : ℕ) (s : MacSt W E α nao nmo ncas) :
    noLog (macBody cs ns tol tolg mic v1 cb dump imc s)
      = noLog (macBody cs ns tol tolg mic v2 cb dump imc s) := by
  have hm := microLoop_noLog cs ns (cs.make_rdm12s s.fcivec ncas cs.nelecas).1
    (cs.make_rdm12s s.fcivec ncas cs.nelecas).2 tolg
    (ns.normD ((cs.make_rdm12s s.fcivec ncas cs.nelecas).1.1 - s.casdm1.1)
      + ns.normD ((cs.make_rdm12s s.fcivec ncas cs.nelecas).1.2 - s.casdm1.2))
    imc cb v1 v2 mic 0
    { mo := s.mo, eris := s.eris, ninner := 0, microBound := s.microBound }
  simp only [noLog, Prod.mk.injEq] at hm
  obtain ⟨h1, h2⟩ := hm
  simp only [macBody]
  rw [h1, h2]
  split
  · rfl
  · split
    · split
      · rfl
      · rfl
    · rfl

lemma macLoop_noLog (cs : Casscf W E D2 G α nao nmo ncas)
    (ns : Norms G α nmo ncas) (tol tolg : α) (mic : ℕ) (cb dump : Bool)
    (v1 v2 : ℕ) (fuel imc : ℕ) (s : MacSt W E α nao nmo ncas) :
    noLog (macLoop cs ns tol tolg mic v1 cb dump fuel imc s)
      = noLog (macLoop cs ns tol tolg mic v2 cb dump fuel imc s) := by
  induction fuel generalizing imc s with
  | zero => rfl
  | succ f ih =>
    have hb := macBody_noLog cs ns tol tolg mic cb dump v1 v2 imc s
    simp only [noLog, Prod.mk.injEq] at hb
    obtain ⟨hb1, hb2⟩ := hb
    simp only [macLoop]
    rw [hb1, hb2]
    split
    · rfl
    · split
      · rfl
      · rename_i s' heqq hcc
        have hr := ih (imc + 1) s'
        simp only [noLog, Prod.mk.injEq] at hr
        simp only [noLog, Prod.mk.injEq]
        exact ⟨hr.1, by rw [hr.2]⟩

/-! ## The claims -/

/-- C1: at the end of every macro iteration the driver sets the converged
flag to true if and only if all three conditions hold simultaneously —
|previous total energy − new total energy| < `tol`, the last micro
iteration's orbital-gradient norm < `toloose` (`casscf.conv_tol_grad`), and
the density-matrix change norm < `toloose` — and when the flag is set the
driver breaks out of the macro loop, so that iteration's record is the last
one in the trace. -/
theorem c1_macro_convergence_test (cs : Casscf W E D2 G α nao nmo ncas)
    (ns : Norms G α nmo ncas) (mo_coeff : MoPair α nao nmo) (tol : α)
    (maxMac mic : ℕ) (ci0 : Option W) (cb : Bool) (vo : Option ℕ) (dump : Bool) :
    ∀ r ∈ macRecs (kernel cs ns mo_coeff tol maxMac mic ci0 cb vo dump).2.1,
      (r.conv = true ↔
        (|r.elast - r.e_tot| < tol ∧ r.norm_gorb < cs.conv_tol_grad
          ∧ r.norm_ddm < cs.conv_tol_grad))
      ∧ (r.conv = true →
          (macRecs (kernel cs ns mo_coeff tol maxMac mic ci0 cb vo dump).2.1).getLast?
            = some r) := by
  simp only [kernel]
  split
  · intro r hr
    simp [macRecs] at hr
  · split
    · intro r hr
      simp only [macRecs_append, macRecs_ao2mo, macRecs_casci, macRecs_nil,
        List.nil_append] at hr ⊢
      exact macLoop_recs cs ns tol cs.conv_tol_grad mic _ cb dump maxMac 0 _ rfl r hr
    · split
      · intro r hr
        simp only [macRecs_append, macRecs_ao2mo, macRecs_casci, macRecs_nil,
          List.nil_append] at hr ⊢
        exact macLoop_recs cs ns tol cs.conv_tol_grad mic _ cb dump maxMac 0 _ rfl r hr
      · intro r hr
        simp only [macRecs_append, macRecs_ao2mo, macRecs_casci, macRecs_nil,
          List.nil_append] at hr ⊢
        exact macLoop_recs cs ns tol cs.conv_tol_grad mic _ cb dump maxMac 0 _ rfl r hr

/-- C1 witness: the convergence-test characterization evaluated on a
concrete two-micro-iteration run (its single macro record has
`conv = false` because the gradient norm 1 is not below `toloose = 1`). -/
theorem c1_macro_convergence_test_witness :
    (false = true ↔ (|(0:ℤ) - 0| < 1 ∧ (1:ℤ) < 1 ∧ (2:ℤ) < 1))
    ∧ (false = true →
        (macRecs (kernel csA nsA moC 1 1 2 none false (some 0) false).2.1).getLast?
          = some (MacRec.mk 0 0 0 1 2 false)) :=
  c1_macro_convergence_test csA nsA moC 1 1 2 none false (some 0) false
    (MacRec.mk 0 0 0 1 2 false) (by decide)

/-- C2: when the active space spans all molecular orbitals
(`ncas = nmo`), `kernel` performs exactly one integral transform and one
CASCI evaluation (the trace is `[ao2moCall, casciCall]`, so the macro loop
is never entered) and returns immediately with `converged = true`, the
CASCI total and active-space energies, the CASCI wavefunction, and the
input orbitals unchanged. -/
theorem c2_full_active_space_early_return (cs : Casscf W E D2 G α nao nmo ncas)
    (ns : Norms G α nmo ncas) (mo_coeff : MoPair α nao nmo) (tol : α)
    (maxMac mic : ℕ) (ci0 : Option W) (cb : Bool) (vo : Option ℕ) (dump : Bool)
    (h : ncas = nmo) :
    (kernel cs ns mo_coeff tol maxMac mic ci0 cb vo dump).1
      = Except.ok (KRes.mk true
          (cs.casci mo_coeff ci0 (cs.ao2mo mo_coeff)).1
          (cs.casci mo_coeff ci0 (cs.ao2mo mo_coeff)).2.1
          (cs.casci mo_coeff ci0 (cs.ao2mo mo_coeff)).2.2
          mo_coeff)
    ∧ (kernel cs ns mo_coeff tol maxMac mic ci0 cb vo dump).2.1
      = [TEvt.ao2moCall, TEvt.casciCall] := by
  subst h
  simp [kernel]

/-- C2 witness: the early return evaluated on a concrete instance with
`ncas = nmo = 1` whose CASCI oracle returns energies `(3, 2)`. -/
theorem c2_full_active_space_early_return_witness :
    (kernel csE nsE moC 1 2 3 none false (some 0) false).1
      = Except.ok (KRes.mk true 3 2 () moC)
    ∧ (kernel csE nsE moC 1 2 3 none false (some 0) false).2.1
      = [TEvt.ao2moCall, TEvt.casciCall] :=
  c2_full_active_space_early_return csE nsE moC 1 2 3 none false (some 0) false rfl

/-- C3: the micro loop (`microLoop`, invoked by the driver with
`tolg = casscf.conv_tol_grad`, a tolerance distinct from the macro energy
tolerance `tol`) stops early exactly when the rotation-deviation norm or
the gradient norm falls below `tolg`: it records at most `fuel` steps;
every non-final step fails the exit test; if it stopped before exhausting
`fuel`, the final step passed the exit test; and whenever at least one step
ran, the returned integral transform was recomputed from the returned
(rotated) orbitals before the test was evaluated. -/
theorem c3_micro_exit_condition (cs : Casscf W E D2 G α nao nmo ncas)
    (ns : Norms G α nmo ncas) (cd1 : DmPair α ncas) (cd2 : D2) (tolg nddm : α)
    (imc v : ℕ) (cb : Bool) (fuel i : ℕ) (ms : MicroSt E α nao nmo) :
    (microRecs (microLoop cs ns cd1 cd2 tolg nddm imc v cb fuel i ms).2.1).length ≤ fuel
    ∧ (∀ p ∈ (microRecs (microLoop cs ns cd1 cd2 tolg nddm imc v cb fuel i ms).2.1).dropLast,
        ¬ (p.2.1 < tolg ∨ p.2.2 < tolg))
    ∧ ((microRecs (microLoop cs ns cd1 cd2 tolg nddm imc v cb fuel i ms).2.1).length < fuel →
        ∃ p, (microRecs (microLoop cs ns cd1 cd2 tolg nddm imc v cb fuel i ms).2.1).getLast?
            = some p ∧ (p.2.1 < tolg ∨ p.2.2 < tolg))
    ∧ ((microRecs (microLoop cs ns cd1 cd2 tolg nddm imc v cb fuel i ms).2.1) ≠ [] →
        (microLoop cs ns cd1 cd2 tolg nddm imc v cb fuel i ms).1.eris
          = cs.ao2mo (microLoop cs ns cd1 cd2 tolg nddm imc v cb fuel i ms).1.mo) := by
  induction fuel generalizing i ms with
  | zero =>
    refine ⟨by simp [microLoop, microRecs], by simp [microLoop, microRecs],
      by simp [microLoop, microRecs], by simp [microLoop, microRecs]⟩
  | succ f ih =>
    simp only [microLoop]
    split
    · rename_i hbr
      rw [microRecs_step_last]
      refine ⟨by simp, by simp, ?_, fun _ => rfl⟩
      intro _
      exact ⟨_, rfl, hbr⟩
    · rename_i hnb
      rw [microRecs_step]
      obtain ⟨ih1, ih2, ih3, ih4⟩ := ih (i + 1) (microStep cs ns cd1 cd2 i ms).ms
      refine ⟨by simp; omega, ?_, ?_, ?_⟩
      · cases hR : microRecs (microLoop cs ns cd1 cd2 tolg nddm imc v cb f (i + 1)
            (microStep cs ns cd1 cd2 i ms).ms).2.1 with
        | nil => simp
        | cons y ys =>
          rw [List.dropLast_cons₂]
          intro p hp
          rcases List.mem_cons.mp hp with rfl | hp'
          · exact hnb
          · rw [hR] at ih2
            exact ih2 p (by simpa [List.dropLast_cons₂] using hp')
      · intro hlen
        simp only [List.length_cons] at hlen
        obtain ⟨p, hp, hc⟩ := ih3 (by omega)
        refine ⟨p, ?_, hc⟩
        rw [← List.singleton_append, List.getLast?_append, hp]
        rfl
      · exact fun _ => microLoop_eris cs ns cd1 cd2 tolg nddm imc v cb f (i + 1) _ rfl

/-- C3 witness: the step-count bound of the exit-condition
characterization, evaluated on a concrete two-step micro loop. -/
theorem c3_micro_exit_condition_witness :
    (microRecs (microLoop csA nsA ((0, 0) : DmPair ℤ 0) () 1 2 0 0 false 2 0
      (MicroSt.mk moC () 0 none)).2.1).length ≤ 2 :=
  (c3_micro_exit_condition csA nsA ((0, 0) : DmPair ℤ 0) () 1 2 0 0 false 2 0
    (MicroSt.mk moC () 0 none)).1

/-- C4: with the macro-iteration cap equal to 0 (and `ncas < nmo`) the
driver does NOT return `(converged = false, initial energy)`: the final
logging reads the loop index `imacro`, which `range(0)` never bound, so the
run aborts with Python's `UnboundLocalError` — evaluated here on a concrete
instance with `maxMac = 0`, `ncas = 0 < nmo = 1`. -/
theorem c4_zero_macro_unbound_local :
    (kernel csA nsA moC 1 0 4 none false (some 0) false).1
      = Except.error (KErr.unboundLocal PyVar.imac) := rfl

/-- C5 counterexample: the checkpoint sink's failure is neither isolated
nor swallowed.  On the same one-macro-iteration input, a sink that always
raises (error code 7) makes `kernel` abort with that very error, while the
succeeding sink lets the run finish normally — so the result is not the
same as if the checkpoint call had succeeded. -/
theorem c5_checkpoint_failure_counterexample :
    (kernel csB nsA moC 1 1 1 none false (some 0) true).1
      = Except.error (KErr.dumpFailed 7)
    ∧ isOkE (kernel csA nsA moC 1 1 1 none false (some 0) true).1 = true
    ∧ (∀ st, csB.dump_chk st = Except.error 7)
    ∧ (∀ st, csA.dump_chk st = Except.ok ()) :=
  ⟨rfl, rfl, fun _ => rfl, fun _ => rfl⟩

/-- C5 amended: if checkpointing is enabled and `dump_chk` raises during a
macro iteration, the exception propagates unmodified out of `kernel`: the
macro loop aborts at the first checkpoint call instead of continuing, and
no result tuple is returned. -/
theorem c5_checkpoint_error_propagates (cs : Casscf W E D2 G α nao nmo ncas)
    (ns : Norms G α nmo ncas) (mo_coeff : MoPair α nao nmo) (tol : α)
    (maxMac mic : ℕ) (ci0 : Option W) (cb : Bool) (vo : Option ℕ) (k : ℕ)
    (hmac : 1 ≤ maxMac) (hmic : 1 ≤ mic) (hne : ¬ ncas = nmo)
    (hd : ∀ st, cs.dump_chk st = Except.error k) :
    (kernel cs ns mo_coeff tol maxMac mic ci0 cb vo true).1
      = Except.error (KErr.dumpFailed k) := by
  obtain ⟨m, rfl⟩ : ∃ m, maxMac = m + 1 := ⟨maxMac - 1, by omega⟩
  simp only [kernel]
  rw [if_neg hne]
  simp only [macLoop]
  rw [macBody_dump_err cs ns tol cs.conv_tol_grad mic _ cb 0 _ k hmic hd]

/-- C5 witness: the amended propagation statement evaluated on the
concrete failing-sink instance. -/
theorem c5_checkpoint_error_propagates_witness :
    (kernel csB nsA moC 1 1 1 none false (some 0) true).1
      = Except.error (KErr.dumpFailed 7) :=
  c5_checkpoint_error_propagates csB nsA moC 1 1 1 none false (some 0) 7
    (by decide) (by decide) (by decide) (fun _ => rfl)

/-- C6 counterexample: a fresh Rotation Generator is NOT created once per
macro iteration.  On a run whose single macro iteration executes two micro
iterations, macro iteration 0 creates two generator instances (one per
micro iteration), and the trace's single macro record confirms exactly one
macro iteration ran. -/
theorem c6_generator_per_macro_counterexample :
    genCreatesAt (kernel csA nsA moC 1 1 2 none false (some 0) false).2.1 0 = 2
    ∧ macRecs (kernel csA nsA moC 1 1 2 none false (some 0) false).2.1
      = [MacRec.mk 0 0 0 1 2 false] := ⟨rfl, rfl⟩

/-- C6 amended: each MICRO iteration (not each macro iteration) creates
exactly one fresh Rotation Generator instance, requests exactly one
(rotation, gradient, inner-count) step from it, and closes it immediately;
the driver never requests a second step from any instance.  Formally, the
generator lifecycle events of every `kernel` trace form a concatenation of
`create p, next p, close p` blocks over single instances `p`. -/
theorem c6_generator_single_step (cs : Casscf W E D2 G α nao nmo ncas)
    (ns : Norms G α nmo ncas) (mo_coeff : MoPair α nao nmo) (tol : α)
    (maxMac mic : ℕ) (ci0 : Option W) (cb : Bool) (vo : Option ℕ) (dump : Bool) :
    wfGen (genEvts (kernel cs ns mo_coeff tol maxMac mic ci0 cb vo dump).2.1)
      = true := by
  simp only [kernel]
  split
  · rfl
  · split
    · exact macLoop_wfGen_plain cs ns tol cs.conv_tol_grad mic _ cb dump maxMac 0 _
    · split
      · exact macLoop_wfGen_plain cs ns tol cs.conv_tol_grad mic _ cb dump maxMac 0 _
      · exact macLoop_wfGen_plain cs ns tol cs.conv_tol_grad mic _ cb dump maxMac 0 _

/-- C6 witness: the generator lifecycle discipline evaluated on the
two-micro-iteration concrete run. -/
theorem c6_generator_single_step_witness :
    wfGen (genEvts (kernel csA nsA moC 1 1 2 none false (some 0) false).2.1)
      = true :=
  c6_generator_single_step csA nsA moC 1 1 2 none false (some 0) false

/-- C7: the orbital update of every micro iteration is
new orbitals = old orbitals × rotation, computed independently per spin
channel (`microStep` applies `updateMo` to the rotation pair returned by
the generator), and applying the identity rotation in both channels leaves
the orbital coefficient pair unchanged. -/
theorem c7_orbital_update_per_spin (cs : Casscf W E D2 G α nao nmo ncas)
    (ns : Norms G α nmo ncas) (cd1 : DmPair α ncas) (cd2 : D2) (i : ℕ)
    (ms : MicroSt E α nao nmo) (mo : MoPair α nao nmo)
    (u : RMat α nmo × RMat α nmo) :
    (microStep cs ns cd1 cd2 i ms).ms.mo
      = updateMo ms.mo (cs.rotate_orb_cc ms.mo cd1 cd2 ms.eris).1
    ∧ updateMo mo u = (mo.1 * u.1, mo.2 * u.2)
    ∧ updateMo mo (1, 1) = mo := by
  refine ⟨rfl, rfl, ?_⟩
  simp [updateMo]

/-- C7 witness: applying the identity rotation to the concrete orbital
pair leaves it unchanged. -/
theorem c7_orbital_update_per_spin_witness :
    updateMo moC (1, 1) = moC :=
  (c7_orbital_update_per_spin csA nsA ((0, 0) : DmPair ℤ 0) () 0
    (MicroSt.mk moC () 0 none) moC (1, 1)).2.2

/-- C8: two runs of `kernel` that differ only in the verbosity setting
return the same `Except` result (converged flag, energies, wavefunction,
orbitals, or propagated error) and the same collaborator-call trace —
verbosity influences only which log lines are emitted, never control flow
or numeric values. -/
theorem c8_verbosity_noninterference (cs : Casscf W E D2 G α nao nmo ncas)
    (ns : Norms G α nmo ncas) (mo_coeff : MoPair α nao nmo) (tol : α)
    (maxMac mic : ℕ) (ci0 : Option W) (cb : Bool) (vo1 vo2 : Option ℕ)
    (dump : Bool) :
    noLog (kernel cs ns mo_coeff tol maxMac mic ci0 cb vo1 dump)
      = noLog (kernel cs ns mo_coeff tol maxMac mic ci0 cb vo2 dump) := by
  simp only [kernel]
  split
  · rfl
  · have hl := macLoop_noLog cs ns tol cs.conv_tol_grad mic cb dump
      (vo1.getD cs.verbose) (vo2.getD cs.verbose) maxMac 0
      { mo := mo_coeff, eris := cs.ao2mo mo_coeff,
        fcivec := (cs.casci mo_coeff ci0 (cs.ao2mo mo_coeff)).2.2,
        e_tot := (cs.casci mo_coeff ci0 (cs.ao2mo mo_coeff)).1,
        e_ci := (cs.casci mo_coeff ci0 (cs.ao2mo mo_coeff)).2.1,
        elast := (cs.casci mo_coeff ci0 (cs.ao2mo mo_coeff)).1, conv := false,
        casdm1 := (0, 0), totmicro := 0, totinner := 0, microBound := none,
        imacLast := none }
    simp only [noLog, Prod.mk.injEq] at hl
    obtain ⟨hl1, hl2⟩ := hl
    rw [hl1, hl2]
    split
    · rfl
    · split
      · rfl
      · rfl

/-- C8 witness: a quiet run and a maximally verbose run of the concrete
instance agree on result and trace. -/
theorem c8_verbosity_noninterference_witness :
    noLog (kernel csA nsA moC 1 1 2 none false (some 0) false)
      = noLog (kernel csA nsA moC 1 1 2 none false (some 9) false) :=
  c8_verbosity_noninterference csA nsA moC 1 1 2 none false (some 0) (some 9) false

/-- C9: whenever the micro cap is at least 1, the micro-loop body runs at
least once before any exit test: at least one rotation step is requested
from a generator, the integral transform of the returned state was
recomputed from the returned (already rotated) orbitals, and the loop
locals `imicro`/`norm_gorb` are bound — all regardless of how small the
very first step's norms are (the norm oracles are universally
quantified). -/
theorem c9_micro_body_runs_first (cs : Casscf W E D2 G α nao nmo ncas)
    (ns : Norms G α nmo ncas) (cd1 : DmPair α ncas) (cd2 : D2) (tolg nddm : α)
    (imc v : ℕ) (cb : Bool) (fuel i : ℕ) (ms : MicroSt E α nao nmo)
    (h : 1 ≤ fuel) :
    1 ≤ genCreates (microLoop cs ns cd1 cd2 tolg nddm imc v cb fuel i ms).2.1
    ∧ (microLoop cs ns cd1 cd2 tolg nddm imc v cb fuel i ms).1.eris
        = cs.ao2mo (microLoop cs ns cd1 cd2 tolg nddm imc v cb fuel i ms).1.mo
    ∧ ((microLoop cs ns cd1 cd2 tolg nddm imc v cb fuel i ms).1.microBound).isSome
        = true := by
  obtain ⟨f, rfl⟩ : ∃ f, fuel = f + 1 := ⟨fuel - 1, by omega⟩
  refine ⟨?_, ?_, ?_⟩
  · simp only [microLoop]
    split
    · cases cb <;> simp [genCreates]
    · rw [genCreates_append]
      have : genCreates ([TEvt.genCreate imc i, TEvt.genNext imc i,
          TEvt.genClose imc i, TEvt.ao2moCall,
          TEvt.microRec imc i (microStep cs ns cd1 cd2 i ms).norm_t
            (microStep cs ns cd1 cd2 i ms).norm_gorb]
          ++ (if cb then [TEvt.callbackCall imc i] else []) : List (TEvt α)) = 1 := by
        cases cb <;> rfl
      omega
  · simp only [microLoop]
    split
    · rfl
    · exact microLoop_eris cs ns cd1 cd2 tolg nddm imc v cb f (i + 1) _ rfl
  · exact microLoop_some cs ns cd1 cd2 tolg nddm imc v cb (f + 1) i ms
      (Or.inr (by omega))

/-- C9 witness: a one-step micro loop on the concrete instance whose very
first step already satisfies nothing special — the body still runs once. -/
theorem c9_micro_body_runs_first_witness :
    1 ≤ genCreates (microLoop csA nsA ((0, 0) : DmPair ℤ 0) () 1 2 0 0 false 1 0
        (MicroSt.mk moC () 0 none)).2.1
    ∧ (microLoop csA nsA ((0, 0) : DmPair ℤ 0) () 1 2 0 0 false 1 0
        (MicroSt.mk moC () 0 none)).1.eris
        = csA.ao2mo (microLoop csA nsA ((0, 0) : DmPair ℤ 0) () 1 2 0 0 false 1 0
            (MicroSt.mk moC () 0 none)).1.mo
    ∧ ((microLoop csA nsA ((0, 0) : DmPair ℤ 0) () 1 2 0 0 false 1 0
        (MicroSt.mk moC () 0 none)).1.microBound).isSome = true :=
  c9_micro_body_runs_first csA nsA ((0, 0) : DmPair ℤ 0) () 1 2 0 0 false 1 0
    (MicroSt.mk moC () 0 none) (by decide)

/-- C10: on the first macro iteration the saved previous density matrices
are the zero pair, so the recorded density-matrix change norm equals
`‖dm_alpha‖ + ‖dm_beta‖` for the density matrices freshly computed from
the initial CASCI wavefunction; consequently the first macro iteration can
set the converged flag only if that sum is below `toloose`
(`casscf.conv_tol_grad`). -/
theorem c10_first_iteration_ddm (cs : Casscf W E D2 G α nao nmo ncas)
    (ns : Norms G α nmo ncas) (mo_coeff : MoPair α nao nmo) (tol : α)
    (maxMac mic : ℕ) (ci0 : Option W) (cb : Bool) (vo : Option ℕ) (dump : Bool) :
    ∀ rec : MacRec α,
      (macRecs (kernel cs ns mo_coeff tol maxMac mic ci0 cb vo dump).2.1).head?
        = some rec →
      rec.imc = 0
      ∧ rec.norm_ddm
          = ns.normD ((cs.make_rdm12s (cs.casci mo_coeff ci0 (cs.ao2mo mo_coeff)).2.2
                ncas cs.nelecas).1.1)
            + ns.normD ((cs.make_rdm12s (cs.casci mo_coeff ci0 (cs.ao2mo mo_coeff)).2.2
                ncas cs.nelecas).1.2)
      ∧ (rec.conv = true → rec.norm_ddm < cs.conv_tol_grad) := by
  intro rec h
  simp only [kernel] at h
  by_cases hne : ncas = nmo
  · rw [if_pos hne] at h
    simp [macRecs] at h
  · rw [if_neg hne] at h
    cases maxMac with
    | zero => simp [macLoop, macRecs] at h
    | succ m =>
      have h' : (macRecs ((macLoop cs ns tol cs.conv_tol_grad mic
          (vo.getD cs.verbose) cb dump (m + 1) 0
          { mo := mo_coeff, eris := cs.ao2mo mo_coeff,
            fcivec := (cs.casci mo_coeff ci0 (cs.ao2mo mo_coeff)).2.2,
            e_tot := (cs.casci mo_coeff ci0 (cs.ao2mo mo_coeff)).1,
            e_ci := (cs.casci mo_coeff ci0 (cs.ao2mo mo_coeff)).2.1,
            elast := (cs.casci mo_coeff ci0 (cs.ao2mo mo_coeff)).1, conv := false,
            casdm1 := (0, 0), totmicro := 0, totinner := 0, microBound := none,
            imacLast := none }).2.1)).head? = some rec := by
        split at h
        · exact h
        · split at h
          · exact h
          · exact h
      obtain ⟨h1, h2, h3, h4⟩ := macLoop_head cs ns tol cs.conv_tol_grad mic
        (vo.getD cs.verbose) cb dump m 0 _ rec h'
      refine ⟨h1, ?_, ?_⟩
      · rw [h3]
        simp
      · intro hcvt
        rw [h4] at hcvt
        split at hcvt
        · rename_i hcnd
          exact hcnd.2.2
        · simp at hcvt

/-- C10 witness: on the concrete run the first macro record has
`norm_ddm = 2 = ‖dm_alpha‖ + ‖dm_beta‖` (each oracle norm is 1), and the
record did not converge since 2 is not below `toloose = 1`. -/
theorem c10_first_iteration_ddm_witness :
    (0 : ℕ) = 0
    ∧ (2 : ℤ) = 1 + 1
    ∧ (false = true → (2 : ℤ) < 1) :=
  c10_first_iteration_ddm csA nsA moC 1 1 2 none false (some 0) false
    (MacRec.mk 0 0 0 1 2 false) rfl
